import Mathlib

/-!
Formal model of the `multistatus` library: the status aggregation and
terminal redraw engine.  `Worker`, `WorkerSet`, `Add`, `Done`, `Fail`,
`Active`, `print` and `Print` are shallow embeddings of the Go functions of
the same names.  The `sync.WaitGroup` counter is modelled as an explicit
`Int` field `wg`; the per-call result of `terminal.IsTerminal` is modelled
as an oracle `Nat → Bool` indexed by the number of checks performed so far;
the wake-ups of the select loop in `Print` are modelled as a list of events,
each carrying the snapshot of the shared worker slice observed at that wake.
-/

/-- Go: `type WorkerState int`. -/
abbrev WorkerState := Int

/-- Go: `Completed WorkerState = iota` (first constant, value 0). -/
def Completed : WorkerState := 0

/-- Go: second `iota` constant, value 1. -/
def Failed : WorkerState := 1

/-- Go: third `iota` constant, value 2. -/
def Pending : WorkerState := 2

/-- Go `Worker` struct.  The `parent` back-pointer is not carried; the parent
WaitGroup counter is instead passed explicitly to `Done`/`Fail`. -/
structure Worker where
  State : WorkerState
  Name : String
deriving DecidableEq

/-- Go `Worker.Done`: `w.State = Completed; w.parent.wg.Done()`.  The parent
counter is the second argument; `wg.Done()` is a decrement by one. -/
def Worker.Done (w : Worker) (wg : Int) : Worker × Int :=
  ({ w with State := Completed }, wg - 1)

/-- Go `Worker.Fail`: `w.State = Failed; w.parent.wg.Done()`. -/
def Worker.Fail (w : Worker) (wg : Int) : Worker × Int :=
  ({ w with State := Failed }, wg - 1)

/-- Go `Worker.Active`: `return w.State == Pending`. -/
def Worker.Active (w : Worker) : Bool :=
  w.State == Pending

/-- Modelled from the spec: the external spinner dependency (`tj/go-spin`),
whose source is not part of this repository.  Per the spec it is a rotating
animation cursor advanced by exactly one frame per repaint, wrapping; `Next`
returns the current frame and advances the cursor.  The concrete frame set is
representative; no claim depends on the frame characters. -/
structure Spinner where
  frames : List Char
  i : Nat
deriving DecidableEq

/-- Modelled from the spec: `Next` yields the frame at the cursor (wrapping)
and advances the cursor by one. -/
def Spinner.Next (s : Spinner) : String × Spinner :=
  (String.mk [s.frames.getD (s.i % s.frames.length) ' '], { s with i := s.i + 1 })

/-- Representative default frame set of the external spinner library. -/
def spinDefaultFrames : List Char := ['|', '/', '-', '\x5c']

/-- Modelled from the spec: a fresh spinner cursor. -/
def Spinner.new : Spinner := ⟨spinDefaultFrames, 0⟩

/-- Go `WorkerSet` struct: worker slice, `sync.WaitGroup` (its counter as an
`Int`), and the spinner. -/
structure WorkerSet where
  Workers : List Worker
  wg : Int
  spinner : Spinner
deriving DecidableEq

/-- Go `New`: `&WorkerSet{spinner: spin.New()}` — zero-valued worker slice
and WaitGroup, fresh spinner. -/
def New : WorkerSet := ⟨[], 0, Spinner.new⟩

/-- Go `WorkerSet.Add`: `w.wg.Add(1)`, append `&Worker{Pending, s, w}`,
return the new worker. -/
def WorkerSet.Add (w : WorkerSet) (s : String) : WorkerSet × Worker :=
  ({ w with wg := w.wg + 1, Workers := w.Workers ++ [⟨Pending, s⟩] }, ⟨Pending, s⟩)

/-- Plain failure glyph (`failed := "✗"`). -/
def plainFailed : String := "✗"

/-- Plain success glyph (`completed := "✔"`). -/
def plainCompleted : String := "✔"

/-- Plain pending glyph (`inProgress := "-"`). -/
def plainInProgress : String := "-"

/-- Colored failure glyph (`"\033[0;31m✗\033[0m"`). -/
def colorFailed : String := "\x1b[0;31m✗\x1b[0m"

/-- Colored success glyph (`"\033[0;32m✔\033[0m"`). -/
def colorCompleted : String := "\x1b[0;32m✔\x1b[0m"

/-- Hide-cursor escape (`"\033[?25l"`). -/
def hideCursor : String := "\x1b[?25l"

/-- Show-cursor escape (`"\033[?25h"`). -/
def showCursor : String := "\x1b[?25h"

/-- Cursor-up escape (`"\033[A"`). -/
def cursorUp : String := "\x1b[A"

/-- Cursor-down-then-clear-line escape pair (`"\033[B\033[2K"`). -/
def cursorDownClear : String := "\x1b[B\x1b[2K"

/-- Go `strings.Repeat`. -/
def strRepeat (s : String) : Nat → String
  | 0 => ""
  | n + 1 => s ++ strRepeat s n

/-- The glyph chosen in the body loop of `print`:
`p := inProgress; if v.State == Completed { p = completed } else if
v.State == Failed { p = failed }`. -/
def taskGlyph (completedG failedG inProgressG : String) (st : WorkerState) : String :=
  if st == Completed then completedG
  else if st == Failed then failedG
  else inProgressG

/-- One body line of `print`: `fmt.Printf("  %s %s\n", p, v.Name)`. -/
def taskLine (completedG failedG inProgressG : String) (v : Worker) : String :=
  "  " ++ taskGlyph completedG failedG inProgressG v.State ++ " " ++ v.Name ++ "\n"

/-- The wipe section of `print` for `n = len(w.Workers)`: `n` newlines,
`n` cursor-ups, `n` cursor-down-and-clear pairs, `n` cursor-ups. -/
def wipeBlock (n : Nat) : String :=
  strRepeat "\n" n ++ strRepeat cursorUp n ++ strRepeat cursorDownClear n ++ strRepeat cursorUp n

/-- Go `WorkerSet.print(end bool)` (the parameter `end` is named `final`
here).  `isTerm` is the fresh result of this call's own
`terminal.IsTerminal` check.  Returns the exact byte stream written to
stdout, and the worker set with the spinner advanced when interactive. -/
def WorkerSet.print (w : WorkerSet) (isTerm : Bool) (final : Bool) : String × WorkerSet :=
  if isTerm then
    (wipeBlock w.Workers.length ++
       String.join (w.Workers.map (taskLine colorCompleted colorFailed (w.spinner.Next).1)) ++
       (hideCursor ++ (if final then showCursor else strRepeat cursorUp w.Workers.length)),
     { w with spinner := (w.spinner.Next).2 })
  else
    (String.join (w.Workers.map (taskLine plainCompleted plainFailed plainInProgress)), w)

/-- A wake-up of the select loop in `Print`; each wake carries the snapshot
of the shared worker slice the loop reads at that moment.  `cancel` is
`<-ctx.Done()`, `tick` is the 100ms timer, `done` is the WaitGroup-wait
goroutine's signal (only deliverable in reality when the counter is zero). -/
inductive Event
  | cancel (snap : List Worker)
  | tick (snap : List Worker)
  | done (snap : List Worker)
deriving DecidableEq

/-- Whether a wake-up is the completion signal. -/
def isDoneE : Event → Bool
  | Event.done _ => true
  | _ => false

/-- Install a snapshot of the shared worker slice into the set. -/
def snapSet (w : WorkerSet) (snap : List Worker) : WorkerSet :=
  { w with Workers := snap }

/-- The interactive select loop of `Print` (lines 123–134): each wake
repaints once — `cancel` and `done` repaint with `end = true` and return,
`tick` repaints with `end = false` and continues.  `oracle k` is the result
of the `k`-th `terminal.IsTerminal` call of this `Print` call; the returned
`Nat` is the index after the last check.  `none` means the loop is still
waiting (the event list was exhausted without a terminating wake). -/
def WorkerSet.PrintLoop (oracle : Nat → Bool) :
    Nat → WorkerSet → List Event → Option (List String × WorkerSet × Nat)
  | _, _, [] => none
  | k, w, Event.cancel snap :: _ =>
      some ([((snapSet w snap).print (oracle k) true).1],
            ((snapSet w snap).print (oracle k) true).2, k + 1)
  | k, w, Event.tick snap :: rest =>
      match WorkerSet.PrintLoop oracle (k + 1) (((snapSet w snap).print (oracle k) false).2) rest with
      | none => none
      | some (os, w2, k2) =>
          some (((snapSet w snap).print (oracle k) false).1 :: os, w2, k2)
  | k, w, Event.done snap :: _ =>
      some ([((snapSet w snap).print (oracle k) true).1],
            ((snapSet w snap).print (oracle k) true).2, k + 1)

/-- The non-interactive branch of `Print` (lines 135–138): `<-done;
w.print(true)`.  It is woken only by the completion signal; `cancel` and
`tick` moments pass without any reaction, check, or output. -/
def WorkerSet.waitPlain (oracle : Nat → Bool) :
    Nat → WorkerSet → List Event → Option (List String × WorkerSet × Nat)
  | _, _, [] => none
  | k, w, Event.done snap :: _ =>
      some ([((snapSet w snap).print (oracle k) true).1],
            ((snapSet w snap).print (oracle k) true).2, k + 1)
  | k, w, Event.cancel _ :: rest => WorkerSet.waitPlain oracle k w rest
  | k, w, Event.tick _ :: rest => WorkerSet.waitPlain oracle k w rest

/-- Go `WorkerSet.Print`: check `terminal.IsTerminal` once at entry (check
index 0) to choose between the interactive select loop and the blocking
plain wait. -/
def WorkerSet.Print (w : WorkerSet) (oracle : Nat → Bool) (events : List Event) :
    Option (List String × WorkerSet × Nat) :=
  if oracle 0 then WorkerSet.PrintLoop oracle 1 w events
  else WorkerSet.waitPlain oracle 1 w events

/-- Modelled from the spec: "a single capability flag resolved once at
entry, with two small rendering strategies ... selected by that flag" — the
entry check's value is used for every repaint of the call. -/
def WorkerSet.PrintFixed (w : WorkerSet) (isTerm : Bool) (events : List Event) :
    Option (List String × WorkerSet × Nat) :=
  if isTerm then WorkerSet.PrintLoop (fun _ => isTerm) 1 w events
  else WorkerSet.waitPlain (fun _ => isTerm) 1 w events

/-- A concurrent mutation of the shared registry: `Add`, or a terminal mark
(`Done`/`Fail`) on the worker at a given position of the slice. -/
inductive Op
  | add (name : String)
  | doneAt (i : Nat)
  | failAt (i : Nat)
deriving DecidableEq

/-- Overwrite the state of the worker at position `i` (pointer write through
the worker handle returned by `Add`). -/
def setStateAt : List Worker → Nat → WorkerState → List Worker
  | [], _, _ => []
  | v :: vs, 0, st => { v with State := st } :: vs
  | v :: vs, i + 1, st => v :: setStateAt vs i st

/-- Effect of one concurrent mutation on the registry. -/
def applyOp (w : WorkerSet) : Op → WorkerSet
  | Op.add s => (WorkerSet.Add w s).1
  | Op.doneAt i => { w with Workers := setStateAt w.Workers i Completed, wg := w.wg - 1 }
  | Op.failAt i => { w with Workers := setStateAt w.Workers i Failed, wg := w.wg - 1 }

/-- Registry reached from `w` by a sequence of mutations. -/
def reachFrom (w : WorkerSet) (ops : List Op) : WorkerSet :=
  ops.foldl applyOp w

/-- Whether position `i` currently holds a `Pending` worker. -/
def pendingAt (l : List Worker) (i : Nat) : Bool :=
  match l[i]? with
  | some v => v.State == Pending
  | none => false

/-- Correct usage per the spec: each terminal mark targets an existing,
still-`Pending` worker (each handle is marked exactly once). -/
def validFrom : WorkerSet → List Op → Bool
  | _, [] => true
  | w, Op.add s :: rest => validFrom (applyOp w (Op.add s)) rest
  | w, Op.doneAt i :: rest => pendingAt w.Workers i && validFrom (applyOp w (Op.doneAt i)) rest
  | w, Op.failAt i :: rest => pendingAt w.Workers i && validFrom (applyOp w (Op.failAt i)) rest

/-- Number of still-`Pending` workers in the slice. -/
def pendingCount (l : List Worker) : Nat :=
  l.countP (fun v => v.State == Pending)

/-- Names appended by the `add` mutations of a sequence, in order. -/
def addNames : List Op → List String
  | [] => []
  | Op.add s :: rest => s :: addNames rest
  | Op.doneAt _ :: rest => addNames rest
  | Op.failAt _ :: rest => addNames rest

/-- C9: `Done` and `Fail` never inspect the worker's current state: each
call unconditionally overwrites `State` (last call wins, independent of the
previous state) and performs one decrement of the shared counter, so a
second terminal mark performs a second decrement rather than saturating at
zero or being a no-op. -/
theorem done_fail_unconditional_decrement :
    (∀ (s₁ s₂ : WorkerState) (n : String) (c : Int),
        Worker.Done ⟨s₁, n⟩ c = (⟨Completed, n⟩, c - 1) ∧
        Worker.Fail ⟨s₁, n⟩ c = (⟨Failed, n⟩, c - 1) ∧
        Worker.Done ⟨s₁, n⟩ c = Worker.Done ⟨s₂, n⟩ c) ∧
    (∀ (v : Worker) (c : Int),
        Worker.Done (Worker.Done v c).1 (Worker.Done v c).2 = (⟨Completed, v.Name⟩, c - 2)) ∧
    (∀ (w : WorkerSet) (i : Nat),
        (applyOp (applyOp w (Op.doneAt i)) (Op.doneAt i)).wg = w.wg - 2) := by
  refine ⟨fun s₁ s₂ n c => ⟨rfl, rfl, rfl⟩, fun v c => ?_, fun w i => ?_⟩
  · simp [Worker.Done]
    omega
  · simp [applyOp]
    omega

/-- C10: the numeric encoding of `WorkerState` makes `Completed` the zero
value (`Completed = 0`, `Failed = 1`, `Pending = 2`); a zero-initialized
worker (state 0, empty name) reports `Active() = false` and renders with the
success glyph; only `Add` establishes the `Pending` starting state. -/
theorem completed_is_zero_value :
    (Completed = 0 ∧ Failed = 1 ∧ Pending = 2) ∧
    Worker.Active ⟨(0 : WorkerState), ""⟩ = false ∧
    (∀ completedG failedG inProgressG,
        taskGlyph completedG failedG inProgressG (0 : WorkerState) = completedG) ∧
    taskLine plainCompleted plainFailed plainInProgress ⟨(0 : WorkerState), ""⟩ = "  ✔ \n" ∧
    (∀ (w : WorkerSet) (s : String), ((WorkerSet.Add w s).2).State = Pending) := by
  refine ⟨⟨rfl, rfl, rfl⟩, rfl, fun cg fg ig => rfl, by decide, fun w s => rfl⟩

/-- C7: with zero tasks the completion signal is immediately available
(`New` has outstanding count 0) and `Print` returns after exactly one final
repaint producing an empty block — no task lines — in interactive and in
non-interactive mode alike. -/
theorem zero_tasks_single_empty_repaint :
    New.wg = 0 ∧
    WorkerSet.Print New (fun _ => true) [Event.done []] =
      some (["\x1b[?25l\x1b[?25h"], ⟨[], 0, ⟨spinDefaultFrames, 1⟩⟩, 2) ∧
    WorkerSet.Print New (fun _ => false) [Event.done []] = some ([""], New, 2) := by
  refine ⟨rfl, by decide, by decide⟩

/-- The non-interactive wait never returns while no completion signal has
fired: `cancel` and `tick` wakes are skipped without output. -/
theorem waitPlain_none_of_no_done (oracle : Nat → Bool) :
    ∀ (events : List Event) (k : Nat) (w : WorkerSet),
      events.any isDoneE = false →
      WorkerSet.waitPlain oracle k w events = none := by
  intro events
  induction events with
  | nil => intro k w _; rfl
  | cons e rest ih =>
      intro k w h
      rw [List.any_cons, Bool.or_eq_false_iff] at h
      cases e with
      | cancel snap => simpa [WorkerSet.waitPlain] using ih k w h.2
      | tick snap => simpa [WorkerSet.waitPlain] using ih k w h.2
      | done snap => exact absurd h.1 (by simp [isDoneE])

/-- The non-interactive wait returns at the first completion signal with one
plain print of the snapshot read at that moment. -/
theorem waitPlain_first_done (oracle : Nat → Bool) (h : ∀ k, oracle k = false) :
    ∀ (pre : List Event) (snap : List Worker) (rest : List Event) (k : Nat) (w : WorkerSet),
      pre.any isDoneE = false →
      WorkerSet.waitPlain oracle k w (pre ++ Event.done snap :: rest) =
        some ([String.join (snap.map (taskLine plainCompleted plainFailed plainInProgress))],
              snapSet w snap, k + 1) := by
  intro pre
  induction pre with
  | nil =>
      intro snap rest k w _
      simp [WorkerSet.waitPlain, h k, WorkerSet.print, snapSet]
  | cons e pre' ih =>
      intro snap rest k w hp
      rw [List.any_cons, Bool.or_eq_false_iff] at hp
      cases e with
      | cancel s => simpa [WorkerSet.waitPlain] using ih snap rest k w hp.2
      | tick s => simpa [WorkerSet.waitPlain] using ih snap rest k w hp.2
      | done s => exact absurd hp.1 (by simp [isDoneE])

/-- C1 counterexample: non-interactive mode, one still-`Pending` task, the
cancellation signal delivered — `Print` does not print and does not return
(the plain branch waits only on the WaitGroup), contradicting "cancellation
alone suffices for the non-interactive call to print and return". -/
theorem nonInteractive_cancel_no_return_cex :
    WorkerSet.Print New (fun _ => false) [Event.cancel [⟨Pending, "a"⟩]] = none := by
  decide

/-- C1 (amended): in non-interactive mode `Print` suppresses all
intermediate output and waits only for completion (the outstanding count
reaching zero); cancellation does not wake it.  When the completion signal
fires it prints each task's final glyph and name as plain text exactly once
(one single write, built from the snapshot read at that moment) and
returns. -/
theorem nonInteractive_waits_completion_only (oracle : Nat → Bool)
    (h : ∀ k, oracle k = false) (w : WorkerSet) (events : List Event) :
    (events.any isDoneE = false → WorkerSet.Print w oracle events = none) ∧
    (∀ (pre : List Event) (snap : List Worker) (rest : List Event),
        events = pre ++ Event.done snap :: rest →
        pre.any isDoneE = false →
        WorkerSet.Print w oracle events =
          some ([String.join (snap.map (taskLine plainCompleted plainFailed plainInProgress))],
                snapSet w snap, 2)) := by
  constructor
  · intro hnone
    simp [WorkerSet.Print, h 0]
    exact waitPlain_none_of_no_done oracle events 1 w hnone
  · intro pre snap rest hev hp
    subst hev
    simp [WorkerSet.Print, h 0]
    exact waitPlain_first_done oracle h pre snap rest 1 w hp

/-- Witness for C1 (amended) at a concrete input: one completed task named
`x`, completion delivered, terminal check false throughout. -/
theorem nonInteractive_waits_completion_only_witness :
    WorkerSet.Print New (fun _ => false) [Event.done [⟨Completed, "x"⟩]] =
      some (["  ✔ x\n"], snapSet New [⟨Completed, "x"⟩], 2) := by
  have h := (nonInteractive_waits_completion_only (fun _ => false) (fun _ => rfl) New
      [Event.done [⟨Completed, "x"⟩]]).2 [] [⟨Completed, "x"⟩] [] rfl (by decide)
  rw [h]
  decide

/-- The interactive loop evaluates the terminal oracle only pointwise, so a
constant oracle can replace any oracle agreeing with it. -/
theorem PrintLoop_const_oracle (oracle : Nat → Bool) (b : Bool) (h : ∀ k, oracle k = b) :
    ∀ (events : List Event) (k : Nat) (w : WorkerSet),
      WorkerSet.PrintLoop oracle k w events = WorkerSet.PrintLoop (fun _ => b) k w events := by
  intro events
  induction events with
  | nil => intro k w; rfl
  | cons e rest ih =>
      intro k w
      cases e with
      | cancel snap => simp [WorkerSet.PrintLoop, h k]
      | tick snap => simp [WorkerSet.PrintLoop, h k, ih]
      | done snap => simp [WorkerSet.PrintLoop, h k]

/-- The plain wait evaluates the terminal oracle only pointwise as well. -/
theorem waitPlain_const_oracle (oracle : Nat → Bool) (b : Bool) (h : ∀ k, oracle k = b) :
    ∀ (events : List Event) (k : Nat) (w : WorkerSet),
      WorkerSet.waitPlain oracle k w events = WorkerSet.waitPlain (fun _ => b) k w events := by
  intro events
  induction events with
  | nil => intro k w; rfl
  | cons e rest ih =>
      intro k w
      cases e with
      | cancel snap => simp [WorkerSet.waitPlain, ih]
      | tick snap => simp [WorkerSet.waitPlain, ih]
      | done snap => simp [WorkerSet.waitPlain, h k]

/-- Each emitted repaint of the interactive loop accounts for exactly one
terminal check after the entry check. -/
theorem PrintLoop_check_count (oracle : Nat → Bool) :
    ∀ (events : List Event) (k : Nat) (w : WorkerSet) (os : List String)
      (w' : WorkerSet) (k' : Nat),
      WorkerSet.PrintLoop oracle k w events = some (os, w', k') →
      k' = k + os.length := by
  intro events
  induction events with
  | nil => intro k w os w' k' hr; simp [WorkerSet.PrintLoop] at hr
  | cons e rest ih =>
      intro k w os w' k' hr
      cases e with
      | cancel snap =>
          simp [WorkerSet.PrintLoop] at hr
          obtain ⟨h1, _, h3⟩ := hr
          simp [← h1, ← h3]
      | tick snap =>
          simp [WorkerSet.PrintLoop] at hr
          rcases hmatch : WorkerSet.PrintLoop oracle (k + 1)
              (((snapSet w snap).print (oracle k) false).2) rest with _ | ⟨os2, w2, k2⟩
          · rw [hmatch] at hr; simp at hr
          · rw [hmatch] at hr
            simp at hr
            obtain ⟨h1, _, h3⟩ := hr
            have := ih (k + 1) (((snapSet w snap).print (oracle k) false).2) os2 w2 k2 hmatch
            simp [← h1, ← h3, this]
            omega
      | done snap =>
          simp [WorkerSet.PrintLoop] at hr
          obtain ⟨h1, _, h3⟩ := hr
          simp [← h1, ← h3]

/-- The plain wait performs exactly one terminal check and one write when it
returns. -/
theorem waitPlain_check_count (oracle : Nat → Bool) :
    ∀ (events : List Event) (k : Nat) (w : WorkerSet) (os : List String)
      (w' : WorkerSet) (k' : Nat),
      WorkerSet.waitPlain oracle k w events = some (os, w', k') →
      k' = k + 1 ∧ os.length = 1 := by
  intro events
  induction events with
  | nil => intro k w os w' k' hr; simp [WorkerSet.waitPlain] at hr
  | cons e rest ih =>
      intro k w os w' k' hr
      cases e with
      | cancel snap => exact ih k w os w' k' (by simpa [WorkerSet.waitPlain] using hr)
      | tick snap => exact ih k w os w' k' (by simpa [WorkerSet.waitPlain] using hr)
      | done snap =>
          simp [WorkerSet.waitPlain] at hr
          obtain ⟨h1, _, h3⟩ := hr
          constructor
          · omega
          · simp [← h1]

/-- C2 counterexample: two terminal oracles that agree at the entry check
(index 0, both `true`) but differ at the first repaint's own re-check give
different output for the same call, so the single entry check does not alone
select the rendering of the repaints — the per-frame re-check inside `print`
influences the repaint's output. -/
theorem per_frame_term_check_matters_cex :
    ((fun _ => true) : Nat → Bool) 0 = ((fun k => k == 0) : Nat → Bool) 0 ∧
    WorkerSet.Print New (fun _ => true) [Event.done [⟨Completed, "a"⟩]] ≠
      WorkerSet.Print New (fun k => k == 0) [Event.done [⟨Completed, "a"⟩]] := by
  exact ⟨rfl, by decide⟩

/-- C2 (amended): `Print` checks `terminal.IsTerminal` at entry to choose the
wait strategy, and `print` re-checks it at every repaint (a call that
returns has performed `1 + number-of-repaints` checks, not one); the
per-repaint check selects that repaint's rendering.  When the terminal
status is constant for the lifetime of the call — the normal case — the call
behaves exactly as the single-flag design: it equals `PrintFixed` driven by
the entry check's value. -/
theorem term_check_refines_fixed_when_constant (oracle : Nat → Bool) (b : Bool)
    (h : ∀ k, oracle k = b) (w : WorkerSet) (events : List Event) :
    WorkerSet.Print w oracle events = WorkerSet.PrintFixed w b events ∧
    (∀ (os : List String) (w' : WorkerSet) (k' : Nat),
        WorkerSet.Print w oracle events = some (os, w', k') → k' = 1 + os.length) := by
  constructor
  · cases hb : b with
    | true =>
        simp [WorkerSet.Print, WorkerSet.PrintFixed, h 0, hb]
        exact PrintLoop_const_oracle oracle true (fun k => by rw [h k, hb]) events 1 w
    | false =>
        simp [WorkerSet.Print, WorkerSet.PrintFixed, h 0, hb]
        exact waitPlain_const_oracle oracle false (fun k => by rw [h k, hb]) events 1 w
  · intro os w' k' hr
    rw [WorkerSet.Print] at hr
    by_cases h0 : oracle 0 = true
    · rw [if_pos h0] at hr
      have := PrintLoop_check_count oracle events 1 w os w' k' hr
      omega
    · rw [if_neg (by simp [h0])] at hr
      have := waitPlain_check_count oracle events 1 w os w' k' hr
      omega

/-- Witness for C2 (amended) at a concrete input: constant-true oracle, one
completion wake with an empty snapshot. -/
theorem term_check_refines_fixed_when_constant_witness :
    WorkerSet.Print New (fun _ => true) [Event.done []] =
      WorkerSet.PrintFixed New true [Event.done []] := by
  exact (term_check_refines_fixed_when_constant (fun _ => true) true (fun _ => rfl) New
    [Event.done []]).1

/-- Bool test that the last repaint of a run ends with the hide-cursor
escape immediately followed by the show-cursor escape. -/
def endsWithShowRestore (os : List String) : Bool :=
  match os.getLast? with
  | some s => (hideCursor ++ showCursor).data.isSuffixOf s.data
  | none => false

/-- A final interactive repaint (`end = true`, terminal check true) emits the
show-cursor escape right after the hide-cursor escape, at the very end of
its output. -/
theorem print_final_interactive_suffix (w : WorkerSet) :
    ∃ p, (w.print true true).1 = p ++ (hideCursor ++ showCursor) := by
  exact ⟨_, rfl⟩

/-- Any terminating run of the interactive loop under a constant-true
terminal oracle ends with a final repaint whose output ends in
hide-cursor + show-cursor. -/
theorem PrintLoop_last_restores (oracle : Nat → Bool) (h : ∀ k, oracle k = true) :
    ∀ (events : List Event) (k : Nat) (w : WorkerSet) (os : List String)
      (w' : WorkerSet) (k' : Nat),
      WorkerSet.PrintLoop oracle k w events = some (os, w', k') →
      ∃ q p, os = q ++ [p ++ (hideCursor ++ showCursor)] := by
  intro events
  induction events with
  | nil => intro k w os w' k' hr; simp [WorkerSet.PrintLoop] at hr
  | cons e rest ih =>
      intro k w os w' k' hr
      cases e with
      | cancel snap =>
          simp [WorkerSet.PrintLoop, h k] at hr
          obtain ⟨h1, _, _⟩ := hr
          refine ⟨[], wipeBlock (snapSet w snap).Workers.length ++
            String.join ((snapSet w snap).Workers.map
              (taskLine colorCompleted colorFailed ((snapSet w snap).spinner.Next).1)), ?_⟩
          rw [← h1]
          simp [WorkerSet.print]
      | tick snap =>
          simp [WorkerSet.PrintLoop] at hr
          rcases hmatch : WorkerSet.PrintLoop oracle (k + 1)
              (((snapSet w snap).print (oracle k) false).2) rest with _ | ⟨os2, w2, k2⟩
          · rw [hmatch] at hr; simp at hr
          · rw [hmatch] at hr
            simp at hr
            obtain ⟨h1, _, _⟩ := hr
            obtain ⟨q, p, hq⟩ := ih (k + 1) (((snapSet w snap).print (oracle k) false).2)
              os2 w2 k2 hmatch
            exact ⟨((snapSet w snap).print (oracle k) false).1 :: q, p, by
              rw [← h1, hq]; simp⟩
      | done snap =>
          simp [WorkerSet.PrintLoop, h k] at hr
          obtain ⟨h1, _, _⟩ := hr
          refine ⟨[], wipeBlock (snapSet w snap).Workers.length ++
            String.join ((snapSet w snap).Workers.map
              (taskLine colorCompleted colorFailed ((snapSet w snap).spinner.Next).1)), ?_⟩
          rw [← h1]
          simp [WorkerSet.print]

/-- C3: in interactive mode (terminal checks true), every exit path of
`Print` — natural completion via the outstanding count reaching zero, or
external cancellation — produces a final repaint whose output emits the
show-cursor escape (`ESC[?25h`) immediately after the hide-cursor escape
(`ESC[?25l`) at its very end, so cursor visibility is restored by the time
the call returns. -/
theorem interactive_final_repaint_restores_cursor (oracle : Nat → Bool)
    (h : ∀ k, oracle k = true) (w : WorkerSet) (events : List Event)
    (os : List String) (w' : WorkerSet) (k' : Nat)
    (hr : WorkerSet.Print w oracle events = some (os, w', k')) :
    endsWithShowRestore os = true := by
  rw [WorkerSet.Print, if_pos (h 0)] at hr
  obtain ⟨q, p, hq⟩ := PrintLoop_last_restores oracle h events 1 w os w' k' hr
  rw [hq]
  rw [endsWithShowRestore]
  rw [List.getLast?_concat]
  show (hideCursor ++ showCursor).data.isSuffixOf (p ++ (hideCursor ++ showCursor)).data = true
  have hdata : (p ++ (hideCursor ++ showCursor)).data
      = p.data ++ (hideCursor ++ showCursor).data := rfl
  rw [hdata, List.isSuffixOf_iff_suffix]
  exact List.suffix_append p.data (hideCursor ++ showCursor).data

/-- Witness for C3 at a concrete input: one cancellation wake with a single
pending task, constant-true terminal oracle. -/
theorem interactive_final_repaint_restores_cursor_witness :
    endsWithShowRestore ["\n\x1b[A\x1b[B\x1b[2K\x1b[A  | a\n\x1b[?25l\x1b[?25h"] = true := by
  exact interactive_final_repaint_restores_cursor (fun _ => true) (fun _ => rfl) New
    [Event.cancel [⟨Pending, "a"⟩]]
    ["\n\x1b[A\x1b[B\x1b[2K\x1b[A  | a\n\x1b[?25l\x1b[?25h"]
    ⟨[⟨Pending, "a"⟩], 0, ⟨spinDefaultFrames, 1⟩⟩ 2 (by decide)

/-- Characters of a concatenated stream. -/
theorem str_data_append (a b : String) : (a ++ b).data = a.data ++ b.data := rfl

/-- Stream concatenation is associative. -/
theorem str_append_assoc (a b c : String) : a ++ b ++ c = a ++ (b ++ c) := by
  apply String.ext
  simp [str_data_append]

/-- Number of occurrences of one character in the stream. -/
def countChar (c : Char) (s : String) : Nat := s.data.count c

/-- Character counts add up over concatenation. -/
theorem countChar_append (c : Char) (a b : String) :
    countChar c (a ++ b) = countChar c a + countChar c b := by
  simp [countChar, str_data_append]

/-- Character count of a repeated block. -/
theorem countChar_strRepeat (c : Char) (s : String) :
    ∀ n, countChar c (strRepeat s n) = n * countChar c s := by
  intro n
  induction n with
  | zero => simp [strRepeat, countChar]
  | succ m ih =>
      simp [strRepeat, countChar_append, ih]
      ring

/-- The wipe section for `n` tasks contains exactly `n` clear-line escapes:
the character `K` occurs once per `ESC[2K` and nowhere else in it. -/
theorem countChar_wipeBlock (n : Nat) : countChar 'K' (wipeBlock n) = n := by
  have h1 : countChar 'K' "\n" = 0 := by decide
  have h2 : countChar 'K' cursorUp = 0 := by decide
  have h3 : countChar 'K' cursorDownClear = 1 := by decide
  simp [wipeBlock, countChar_append, countChar_strRepeat, h1, h2, h3]

/-- C6: in interactive mode, each repaint's erase phase is computed from the
task count read at that repaint itself: the output starts with the wipe
section for exactly `len(w.Workers)` lines — containing exactly that many
`ESC[2K` clear-line escapes — emitted before the task lines, so the erase
region tracks the current length of the task slice and no stray lines remain
when tasks were added between repaints. -/
theorem erase_phase_matches_current_count (w : WorkerSet) (final : Bool) :
    (w.print true final).1 =
      wipeBlock w.Workers.length ++
        (String.join (w.Workers.map (taskLine colorCompleted colorFailed ((w.spinner.Next).1))) ++
         (hideCursor ++ (if final then showCursor else strRepeat cursorUp w.Workers.length))) ∧
    countChar 'K' (wipeBlock w.Workers.length) = w.Workers.length := by
  constructor
  · rw [← str_append_assoc]
    rfl
  · exact countChar_wipeBlock w.Workers.length

/-- State overwrites touch only the targeted position's state, never the
order or the names of the slice. -/
theorem setStateAt_map_name : ∀ (l : List Worker) (i : Nat) (st : WorkerState),
    (setStateAt l i st).map Worker.Name = l.map Worker.Name := by
  intro l
  induction l with
  | nil => intro i st; rfl
  | cons v vs ih =>
      intro i st
      cases i with
      | zero => simp [setStateAt]
      | succ j => simp [setStateAt, ih]

/-- The registry's name sequence is exactly the `add` names in order, no
matter how terminal marks interleave. -/
theorem reachFrom_map_name : ∀ (ops : List Op) (w : WorkerSet),
    (reachFrom w ops).Workers.map Worker.Name = w.Workers.map Worker.Name ++ addNames ops := by
  intro ops
  induction ops with
  | nil => intro w; simp [reachFrom, addNames]
  | cons op rest ih =>
      intro w
      cases op with
      | add s =>
          show (reachFrom (applyOp w (Op.add s)) rest).Workers.map Worker.Name = _
          rw [ih]
          simp [applyOp, WorkerSet.Add, addNames]
      | doneAt i =>
          show (reachFrom (applyOp w (Op.doneAt i)) rest).Workers.map Worker.Name = _
          rw [ih]
          simp [applyOp, setStateAt_map_name, addNames]
      | failAt i =>
          show (reachFrom (applyOp w (Op.failAt i)) rest).Workers.map Worker.Name = _
          rw [ih]
          simp [applyOp, setStateAt_map_name, addNames]

/-- C5: every repaint prints exactly one line per task in insertion order:
both rendering modes print the in-order map of `taskLine` over the slice
(line `i` is rendered from task `i`), `Add` appends at the end, and no
operation ever reorders the slice — after any interleaving of mutations the
name sequence equals the `add` names in insertion order. -/
theorem repaint_preserves_insertion_order :
    (∀ (cg fg ig : String) (ws : List Worker) (i : Nat),
        (ws.map (taskLine cg fg ig))[i]? = (ws[i]?).map (taskLine cg fg ig)) ∧
    (∀ (w : WorkerSet) (final : Bool),
        (w.print true final).1 =
          wipeBlock w.Workers.length ++
            String.join (w.Workers.map (taskLine colorCompleted colorFailed ((w.spinner.Next).1))) ++
            (hideCursor ++ (if final then showCursor else strRepeat cursorUp w.Workers.length)) ∧
        (w.print false final).1 =
          String.join (w.Workers.map (taskLine plainCompleted plainFailed plainInProgress))) ∧
    (∀ (w : WorkerSet) (s : String),
        ((WorkerSet.Add w s).1).Workers = w.Workers ++ [⟨Pending, s⟩]) ∧
    (∀ ops : List Op, (reachFrom New ops).Workers.map Worker.Name = addNames ops) := by
  refine ⟨fun cg fg ig ws i => ?_, fun w final => ⟨rfl, rfl⟩, fun w s => rfl, fun ops => ?_⟩
  · simp
  · simpa using reachFrom_map_name ops New

/-- Marking a still-`Pending` position with a terminal state decreases the
pending census by exactly one. -/
theorem pendingCount_setStateAt : ∀ (l : List Worker) (i : Nat) (st : WorkerState),
    pendingAt l i = true → (st == Pending) = false →
    pendingCount (setStateAt l i st) + 1 = pendingCount l := by
  intro l
  induction l with
  | nil => intro i st h _; simp [pendingAt] at h
  | cons v vs ih =>
      intro i st h hst
      cases i with
      | zero =>
          simp [pendingAt] at h
          simp [setStateAt, pendingCount, List.countP_cons, h, hst]
      | succ j =>
          have h' : pendingAt vs j = true := by simpa [pendingAt] using h
          have := ih j st h' hst
          simp [setStateAt, pendingCount, List.countP_cons] at this ⊢
          omega

/-- Under correct usage (each handle marked exactly once while pending), the
WaitGroup counter always equals the number of still-`Pending` workers. -/
theorem wg_counts_pending : ∀ (ops : List Op) (w : WorkerSet),
    validFrom w ops = true →
    w.wg = (pendingCount w.Workers : Int) →
    (reachFrom w ops).wg = (pendingCount (reachFrom w ops).Workers : Int) := by
  intro ops
  induction ops with
  | nil => intro w _ h; simpa [reachFrom] using h
  | cons op rest ih =>
      intro w hv hw
      cases op with
      | add s =>
          refine ih (applyOp w (Op.add s)) (by simpa [validFrom] using hv) ?_
          have hwg : (applyOp w (Op.add s)).wg = w.wg + 1 := rfl
          have hone : pendingCount [(⟨Pending, s⟩ : Worker)] = 1 := rfl
          have hp : pendingCount ((applyOp w (Op.add s)).Workers)
              = pendingCount w.Workers + 1 := by
            simp only [applyOp, WorkerSet.Add, pendingCount, List.countP_append]
            simp only [pendingCount] at hone
            omega
          rw [hwg, hp, hw]
          push_cast
          ring
      | doneAt i =>
          simp [validFrom, Bool.and_eq_true] at hv
          refine ih (applyOp w (Op.doneAt i)) hv.2 ?_
          have hc := pendingCount_setStateAt w.Workers i Completed hv.1 (by decide)
          have hwg : (applyOp w (Op.doneAt i)).wg = w.wg - 1 := rfl
          have hws : (applyOp w (Op.doneAt i)).Workers
              = setStateAt w.Workers i Completed := rfl
          rw [hwg, hws, hw]
          omega
      | failAt i =>
          simp [validFrom, Bool.and_eq_true] at hv
          refine ih (applyOp w (Op.failAt i)) hv.2 ?_
          have hc := pendingCount_setStateAt w.Workers i Failed hv.1 (by decide)
          have hwg : (applyOp w (Op.failAt i)).wg = w.wg - 1 := rfl
          have hws : (applyOp w (Op.failAt i)).Workers
              = setStateAt w.Workers i Failed := rfl
          rw [hwg, hws, hw]
          omega

/-- C4: in every repaint (final ones included) each task's printed glyph is
a pure function of the state the repaint reads — `Completed` maps to the
success glyph (the green ✔ interactively), `Failed` to the failure glyph
(the red ✗), any other state (`Pending`) to the pending glyph (the animation
frame interactively) — and under correct usage a zero outstanding count (the
completion wake's condition) implies no task is still `Pending`, so
still-pending lines can appear in a final repaint only on the cancellation
path. -/
theorem glyph_pure_and_pending_only_on_cancel (ops : List Op)
    (hv : validFrom New ops = true) (hz : (reachFrom New ops).wg = 0) :
    (∀ cg fg ig : String,
        taskGlyph cg fg ig Completed = cg ∧
        taskGlyph cg fg ig Failed = fg ∧
        taskGlyph cg fg ig Pending = ig) ∧
    colorCompleted = "\x1b[0;32m✔\x1b[0m" ∧ colorFailed = "\x1b[0;31m✗\x1b[0m" ∧
    (∀ v ∈ (reachFrom New ops).Workers, v.State ≠ Pending) := by
  refine ⟨fun cg fg ig => ⟨rfl, rfl, rfl⟩, rfl, rfl, ?_⟩
  have h0 := wg_counts_pending ops New hv rfl
  rw [hz] at h0
  have hpc : pendingCount (reachFrom New ops).Workers = 0 := by omega
  intro v hmem
  have hnp := List.countP_eq_zero.mp hpc v hmem
  intro heq
  exact hnp (by simp [heq])

/-- Witness for C4 at a concrete input: one task added and completed, so the
counter is zero and the single worker is terminal. -/
theorem glyph_pure_and_pending_only_on_cancel_witness :
    (Worker.mk Completed "a").State ≠ Pending := by
  exact (glyph_pure_and_pending_only_on_cancel [Op.add "a", Op.doneAt 0]
    (by decide) (by decide)).2.2.2 ⟨Completed, "a"⟩ (by decide)
